import Mathlib

/-!
# Verification of the WVG decoder and SVG renderer

A shallow embedding of the WVG (Wireless Vector Graphics) parser and SVG
converter, translated from the Rust sources (`src/bitstream.rs`,
`src/parser.rs`, `src/svg.rs`, `src/types.rs`, `src/error.rs`), together
with theorems settling the specification claims.

Machine integers are modelled as `Nat`/`Int`.  `u32` values stay below
`2 ^ 32` by construction for all bit widths up to 32, so no reduction is
needed in `readBits`; where `i32` overflow matters (`read_signed_bits`
with `n = 32`) the release-mode wrapping semantics of Rust (masked shift
amounts, two's-complement wrap-around) are modelled explicitly.
Floating-point quantities of the renderer are modelled over `ℚ`; every
comparison the renderer performs on them is far from the rounding error
of `f64` at the integer inputs the decoder can produce (see the comments
at `computeArcCommand`).
-/

/-- Errors of the decoder, from `error.rs` (`WvgError`).  Only the variants
reachable from the embedded functions are carried over. -/
inductive WvgError where
  | endOfStream : WvgError
  | invalidElementType : Nat → WvgError
  | elementIndexOutOfBounds : (index : Nat) → (max : Nat) → WvgError
  deriving DecidableEq, Repr

/-- The result type `WvgResult<T>` from `error.rs`. -/
abbrev WvgResult (α : Type) := Except WvgError α

/-- The bit-level stream reader from `bitstream.rs` (`BitStream`): a byte
buffer with a byte position and a bit position inside the current byte
(0 = most significant bit). -/
structure BitStream where
  data : List Nat
  bytePos : Nat
  bitPos : Nat
  deriving DecidableEq, Repr

namespace BitStream

/-- `BitStream::new`. -/
def new (d : List Nat) : BitStream := ⟨d, 0, 0⟩

/-- Absolute bit index of the cursor (for counting consumed bits). -/
def bitIndex (bs : BitStream) : Nat := 8 * bs.bytePos + bs.bitPos

/-- `BitStream::read_bit`: MSB-first single bit read, `EndOfStream` past the
end of the data. -/
def readBit (bs : BitStream) : WvgResult (Nat × BitStream) :=
  if h : bs.bytePos < bs.data.length then
    let byte := bs.data.get ⟨bs.bytePos, h⟩
    let bit := (byte >>> (7 - bs.bitPos)) &&& 1
    if bs.bitPos + 1 = 8 then
      .ok (bit, ⟨bs.data, bs.bytePos + 1, 0⟩)
    else
      .ok (bit, ⟨bs.data, bs.bytePos, bs.bitPos + 1⟩)
  else
    .error .endOfStream

/-- Accumulator loop of `BitStream::read_bits`: `val = (val << 1) | bit`.
Since each bit is 0 or 1, `(val << 1) | bit = 2 * val + bit`. -/
def readBitsAux : Nat → Nat → BitStream → WvgResult (Nat × BitStream)
  | 0, val, bs => .ok (val, bs)
  | n + 1, val, bs => do
    let (b, bs') ← bs.readBit
    readBitsAux n (2 * val + b) bs'

/-- `BitStream::read_bits`: `n` bits MSB-first as an unsigned integer.  For
`n ≤ 32` the Rust `u32` accumulator never wraps, so plain `Nat` is exact. -/
def readBits (n : Nat) (bs : BitStream) : WvgResult (Nat × BitStream) :=
  readBitsAux n 0 bs

/-- `val as i32` on a `u32` value `val < 2 ^ 32`. -/
def toInt32 (v : Nat) : Int :=
  if v < 2 ^ 31 then (v : Int) else (v : Int) - 2 ^ 32

/-- Two's-complement wrap-around of an `i32` arithmetic result (Rust release
semantics of overflowing subtraction). -/
def wrap32 (x : Int) : Int := (x + 2 ^ 31) % 2 ^ 32 - 2 ^ 31

/-- Release-mode value of `1i32 << n`: the shift amount is masked to 5 bits
(in a debug build `n = 32` panics instead; the parser itself never requests
more than 16 bits). -/
def shlMask32 (n : Nat) : Int := 2 ^ (n % 32)

/-- `BitStream::read_signed_bits`: read `n` bits, then if the sign bit (bit
`n - 1`) is set, sign-extend by subtracting `2 ^ n`.  The subtraction
`val as i32 - (1 << n)` is modelled with Rust release-mode wrapping, which
only differs from exact arithmetic at `n = 32`. -/
def readSignedBits (n : Nat) (bs : BitStream) : WvgResult (Int × BitStream) := do
  let (val, bs') ← bs.readBits n
  if val.testBit (n - 1) then
    .ok (wrap32 (toInt32 val - shlMask32 n), bs')
  else
    .ok ((val : Int), bs')

end BitStream

/-! ## Document model (`types.rs`) -/

/-- An RGB color (`types.rs`, `Color`). -/
structure Color where
  r : Nat
  g : Nat
  b : Nat
  deriving DecidableEq, Repr

/-- `Color::BLACK`. -/
def Color.black : Color := ⟨0, 0, 0⟩

/-- Line type styles (`types.rs`, `LineType`). -/
inductive LineType where
  | solid | dashed | dotted | dashDot
  deriving DecidableEq, Repr

/-- `impl From<u32> for LineType`. -/
def LineType.fromValue (value : Nat) : LineType :=
  match value with
  | 0 => .solid
  | 1 => .dashed
  | 2 => .dotted
  | 3 => .dashDot
  | _ => .solid

/-- Line width settings (`types.rs`, `LineWidth`). -/
inductive LineWidth where
  | widthNone | fine | normal | thick
  deriving DecidableEq, Repr

/-- `impl From<u32> for LineWidth`. -/
def LineWidth.fromValue (value : Nat) : LineWidth :=
  match value with
  | 0 => .widthNone
  | 1 => .fine
  | 2 => .normal
  | 3 => .thick
  | _ => .fine

/-- A 2D point (`types.rs`, `Point`). -/
structure Point where
  x : Int
  y : Int
  deriving DecidableEq, Repr

/-- A point of a circular polyline (`types.rs`, `CircularPoint`). -/
structure CircularPoint where
  curveOffset : Int
  point : Point
  isAbsolute : Bool
  deriving DecidableEq, Repr

/-- Element attributes (`types.rs`, `ElementAttributes`). -/
structure ElementAttributes where
  lineType : Option LineType := none
  lineWidth : Option LineWidth := none
  lineColor : Option Color := none
  fill : Option Bool := none
  fillColor : Option Color := none
  deriving DecidableEq, Repr

/-- A transform (`types.rs`, `Transform`): seven independent optional
components, absent meaning identity for that component. -/
structure Transform where
  translateX : Option Int := none
  translateY : Option Int := none
  angle : Option Int := none
  scaleX : Option Int := none
  scaleY : Option Int := none
  cx : Option Int := none
  cy : Option Int := none
  deriving DecidableEq, Repr

/-- Array-replication parameters of a reuse element (`types.rs`,
`ArrayParams`). -/
structure ArrayParams where
  columns : Nat
  rows : Nat
  width : Option Int
  height : Option Int
  deriving DecidableEq, Repr

/-- A reuse element (`types.rs`, `ReuseElement`). -/
structure ReuseElement where
  elementIndex : Nat
  transform : Transform
  arrayParams : Option ArrayParams
  overrideAttributes : Option ElementAttributes
  deriving DecidableEq, Repr

/-- A group start element (`types.rs`, `GroupStartElement`). -/
structure GroupStartElement where
  transform : Option Transform
  display : Bool
  deriving DecidableEq, Repr

/-- A polyline element (`types.rs`, `PolylineElement`). -/
structure PolylineElement where
  attributes : ElementAttributes
  points : List Point
  deriving DecidableEq, Repr

/-- A circular polyline element (`types.rs`, `CircularPolylineElement`). -/
structure CircularPolylineElement where
  attributes : ElementAttributes
  points : List CircularPoint
  deriving DecidableEq, Repr

/-- Simple shape kinds (`types.rs`, `SimpleShapeType`). -/
inductive SimpleShapeType where
  | rectangle | ellipse
  deriving DecidableEq, Repr

/-- A simple shape element (`types.rs`, `SimpleShapeElement`). -/
structure SimpleShapeElement where
  shapeType : SimpleShapeType
  attributes : ElementAttributes
  deriving DecidableEq, Repr

/-- Element payloads (`types.rs`, `ElementData`). -/
inductive ElementData where
  | polyline : PolylineElement → ElementData
  | circularPolyline : CircularPolylineElement → ElementData
  | groupStart : GroupStartElement → ElementData
  | groupEnd : ElementData
  | reuse : ReuseElement → ElementData
  | simpleShape : SimpleShapeElement → ElementData
  deriving DecidableEq, Repr

/-- Attribute-usage masks (`types.rs`, `AttributeMasks`). -/
structure AttributeMasks where
  lineType : Bool := false
  lineWidth : Bool := false
  lineColor : Bool := false
  fill : Bool := false
  deriving DecidableEq, Repr

/-- Generic numeric parameters (`types.rs`, `GenericParams`). -/
structure GenericParams where
  angleResolution : Nat := 3
  angleInBits : Nat := 2
  scaleResolution : Nat := 0
  scaleInBits : Nat := 2
  indexInBits : Nat := 2
  curveOffsetInBits : Option Nat := none
  deriving DecidableEq, Repr

/-- Flat coordinate-system parameters (`types.rs`,
`FlatCoordinateParams`). -/
structure FlatCoordinateParams where
  drawingWidth : Nat
  drawingHeight : Nat
  maxXInBits : Nat
  maxYInBits : Nat
  xyAllPositive : Bool
  transXyInBits : Nat
  numPointsInBits : Nat
  offsetXInBitsLevel1 : Nat
  offsetYInBitsLevel1 : Nat
  offsetXInBitsLevel2 : Nat
  offsetYInBitsLevel2 : Nat
  deriving DecidableEq, Repr

/-- The parser state that element decoding reads from (the corresponding
fields of `WvgParser` in `parser.rs`, fixed after the header is parsed). -/
structure ParserEnv where
  elementMasks : List Bool
  attributeMasks : AttributeMasks
  genericParams : GenericParams
  flatParams : FlatCoordinateParams
  deriving DecidableEq, Repr

/-! ## Element decoding (`parser.rs`) -/

namespace WvgParser

open BitStream

/-- `WvgParser::parse_point`: an absolute coordinate pair, each axis
unsigned or signed according to the all-positive flag, with the configured
coordinate widths. -/
def parsePoint (flat : FlatCoordinateParams) (bs : BitStream) :
    WvgResult (Point × BitStream) := do
  let (x, bs) ←
    if flat.xyAllPositive then
      (fun (v, bs') => ((v : Int), bs')) <$> readBits flat.maxXInBits bs
    else
      readSignedBits flat.maxXInBits bs
  let (y, bs) ←
    if flat.xyAllPositive then
      (fun (v, bs') => ((v : Int), bs')) <$> readBits flat.maxYInBits bs
    else
      readSignedBits flat.maxYInBits bs
  .ok (⟨x, y⟩, bs)

/-- `WvgParser::parse_offset`: a signed relative movement, widths chosen
per axis from the level-1/level-2 tables by the element's offset-use
flags. -/
def parseOffset (flat : FlatCoordinateParams) (offsetXUse offsetYUse : Bool)
    (bs : BitStream) : WvgResult ((Int × Int) × BitStream) := do
  let xBits := if offsetXUse then flat.offsetXInBitsLevel2 else flat.offsetXInBitsLevel1
  let yBits := if offsetYUse then flat.offsetYInBitsLevel2 else flat.offsetYInBitsLevel1
  let (dx, bs) ← readSignedBits xBits bs
  let (dy, bs) ← readSignedBits yBits bs
  .ok ((dx, dy), bs)

/-- The curve-offset bit width: 5 bits when the header's curve-offset-width
parameter decoded to 1, else 4 (`parser.rs`, `parse_curve_offset`, and the
same computation in `svg.rs`, `compute_arc_command`). -/
def curveOffsetWidth (gp : GenericParams) : Nat :=
  if gp.curveOffsetInBits.getD 0 = 1 then 5 else 4

/-- `WvgParser::parse_curve_offset`: when the element's curve hint is set a
presence bit is read first and a 0 yields offset 0 with nothing further
consumed; otherwise a signed value of the configured width is read. -/
def parseCurveOffset (gp : GenericParams) (curveHint : Bool) (bs : BitStream) :
    WvgResult (Int × BitStream) := do
  if curveHint then
    let (b, bs) ← bs.readBit
    if b = 0 then
      .ok (0, bs)
    else
      readSignedBits (curveOffsetWidth gp) bs
  else
    readSignedBits (curveOffsetWidth gp) bs

/-- `WvgParser::parse_attributes_set`: attribute fields gated by the
document-level attribute masks.  Line color and fill color are the
placeholder black of the source. -/
def parseAttributesSet (am : AttributeMasks) (bs : BitStream) :
    WvgResult (ElementAttributes × BitStream) := do
  let attrs : ElementAttributes := {}
  let (attrs, bs) ←
    if am.lineType then do
      let (v, bs) ← readBits 2 bs
      pure ({ attrs with lineType := some (LineType.fromValue v) }, bs)
    else
      pure (attrs, bs)
  let (attrs, bs) ←
    if am.lineWidth then do
      let (v, bs) ← readBits 2 bs
      pure ({ attrs with lineWidth := some (LineWidth.fromValue v) }, bs)
    else
      pure (attrs, bs)
  let (attrs, bs) ←
    if am.lineColor then do
      let lw := attrs.lineWidth.getD .fine
      if lw ≠ .widthNone then do
        let (b, bs) ← bs.readBit
        if b = 1 then
          pure ({ attrs with lineColor := some Color.black }, bs)
        else
          pure (attrs, bs)
      else
        pure (attrs, bs)
    else
      pure (attrs, bs)
  let (attrs, bs) ←
    if am.fill then do
      let (b, bs) ← bs.readBit
      if b = 1 then do
        let (b2, bs) ← bs.readBit
        if b2 = 1 then
          pure ({ attrs with fill := some true, fillColor := some Color.black }, bs)
        else
          pure ({ attrs with fill := some true }, bs)
      else
        pure ({ attrs with fill := some false }, bs)
    else
      pure (attrs, bs)
  .ok (attrs, bs)

/-- `WvgParser::parse_basic_element_header` (flat mode): the two offset-use
flags, then an optional attribute block gated first by "any attribute mask
active" and then by a "has attributes" bit.  Returns the attributes along
with the offset-use flags the source stores in the parser state. -/
def parseBasicElementHeader (env : ParserEnv) (bs : BitStream) :
    WvgResult ((ElementAttributes × Bool × Bool) × BitStream) := do
  let (bx, bs) ← bs.readBit
  let (by', bs) ← bs.readBit
  let offsetXUse := bx = 1
  let offsetYUse := by' = 1
  let hasAnyAttr := env.attributeMasks.lineType || env.attributeMasks.lineWidth
      || env.attributeMasks.lineColor || env.attributeMasks.fill
  let (attrs, bs) ←
    if hasAnyAttr then do
      let (b, bs) ← bs.readBit
      if b = 1 then
        parseAttributesSet env.attributeMasks bs
      else
        pure (({} : ElementAttributes), bs)
    else
      pure (({} : ElementAttributes), bs)
  .ok ((attrs, offsetXUse, offsetYUse), bs)

/-- The point-accumulation loop of `WvgParser::parse_polyline_element`:
each iteration decodes a relative offset and appends the previous point
translated by it. -/
def parsePolylinePoints (flat : FlatCoordinateParams) (offsetXUse offsetYUse : Bool) :
    Nat → Point → BitStream → WvgResult (List Point × BitStream)
  | 0, _, bs => .ok ([], bs)
  | n + 1, last, bs => do
    let ((dx, dy), bs) ← parseOffset flat offsetXUse offsetYUse bs
    let next : Point := ⟨last.x + dx, last.y + dy⟩
    let (rest, bs) ← parsePolylinePoints flat offsetXUse offsetYUse n next bs
    .ok (next :: rest, bs)

/-- `WvgParser::parse_polyline_element`: header, point count, one absolute
first point, then `count` accumulated relative points. -/
def parsePolylineElement (env : ParserEnv) (bs : BitStream) :
    WvgResult (PolylineElement × BitStream) := do
  let ((attributes, offsetXUse, offsetYUse), bs) ← parseBasicElementHeader env bs
  let (numPoints, bs) ← readBits env.flatParams.numPointsInBits bs
  let (firstPoint, bs) ← parsePoint env.flatParams bs
  let (rest, bs) ← parsePolylinePoints env.flatParams offsetXUse offsetYUse numPoints firstPoint bs
  .ok (⟨attributes, firstPoint :: rest⟩, bs)

/-- The trailing-point loop of `WvgParser::parse_circular_polyline_element`:
each iteration decodes a curve offset and a relative `(dx, dy)`, stored as a
non-absolute `CircularPoint`. -/
def parseCircularPoints (env : ParserEnv) (curveHint offsetXUse offsetYUse : Bool) :
    Nat → BitStream → WvgResult (List CircularPoint × BitStream)
  | 0, bs => .ok ([], bs)
  | n + 1, bs => do
    let (offset, bs) ← parseCurveOffset env.genericParams curveHint bs
    let ((dx, dy), bs) ← parseOffset env.flatParams offsetXUse offsetYUse bs
    let (rest, bs) ← parseCircularPoints env curveHint offsetXUse offsetYUse n bs
    .ok (⟨offset, ⟨dx, dy⟩, false⟩ :: rest, bs)

/-- `WvgParser::parse_circular_polyline_element`: header, curve-hint bit,
point count, an absolute first point with curve offset forced to 0, an
absolute second point with a decoded curve offset, then `count` relative
points. -/
def parseCircularPolylineElement (env : ParserEnv) (bs : BitStream) :
    WvgResult (CircularPolylineElement × BitStream) := do
  let ((attributes, offsetXUse, offsetYUse), bs) ← parseBasicElementHeader env bs
  let (ch, bs) ← bs.readBit
  let curveHint := ch = 1
  let (numPoints, bs) ← readBits env.flatParams.numPointsInBits bs
  let (firstPt, bs) ← parsePoint env.flatParams bs
  let (secondOffset, bs) ← parseCurveOffset env.genericParams curveHint bs
  let (secondPt, bs) ← parsePoint env.flatParams bs
  let (rest, bs) ← parseCircularPoints env curveHint offsetXUse offsetYUse numPoints bs
  .ok (⟨attributes, ⟨0, firstPt, true⟩ :: ⟨secondOffset, secondPt, true⟩ :: rest⟩, bs)

/-- `WvgParser::parse_translate_value`: signed, `trans_xy_in_bits` wide. -/
def parseTranslateValue (flat : FlatCoordinateParams) (bs : BitStream) :
    WvgResult (Int × BitStream) :=
  readSignedBits flat.transXyInBits bs

/-- `WvgParser::parse_angle_value`: signed, `angle_in_bits + 1` wide. -/
def parseAngleValue (gp : GenericParams) (bs : BitStream) :
    WvgResult (Int × BitStream) :=
  readSignedBits (gp.angleInBits + 1) bs

/-- `WvgParser::parse_scale_value`: signed, `scale_in_bits + 1` wide. -/
def parseScaleValue (gp : GenericParams) (bs : BitStream) :
    WvgResult (Int × BitStream) :=
  readSignedBits (gp.scaleInBits + 1) bs

/-- `WvgParser::parse_transform`: presence bits for translate X and Y, then
one gate bit for an extended block with presence bits for angle, scale X,
scale Y, center X and center Y, in that order. -/
def parseTransform (env : ParserEnv) (bs : BitStream) :
    WvgResult (Transform × BitStream) := do
  let t : Transform := {}
  let (b, bs) ← bs.readBit
  let (t, bs) ←
    if b = 1 then do
      let (v, bs) ← parseTranslateValue env.flatParams bs
      pure ({ t with translateX := some v }, bs)
    else
      pure (t, bs)
  let (b, bs) ← bs.readBit
  let (t, bs) ←
    if b = 1 then do
      let (v, bs) ← parseTranslateValue env.flatParams bs
      pure ({ t with translateY := some v }, bs)
    else
      pure (t, bs)
  let (b, bs) ← bs.readBit
  if b = 1 then do
    let (b, bs) ← bs.readBit
    let (t, bs) ←
      if b = 1 then do
        let (v, bs) ← parseAngleValue env.genericParams bs
        pure ({ t with angle := some v }, bs)
      else
        pure (t, bs)
    let (b, bs) ← bs.readBit
    let (t, bs) ←
      if b = 1 then do
        let (v, bs) ← parseScaleValue env.genericParams bs
        pure ({ t with scaleX := some v }, bs)
      else
        pure (t, bs)
    let (b, bs) ← bs.readBit
    let (t, bs) ←
      if b = 1 then do
        let (v, bs) ← parseScaleValue env.genericParams bs
        pure ({ t with scaleY := some v }, bs)
      else
        pure (t, bs)
    let (b, bs) ← bs.readBit
    let (t, bs) ←
      if b = 1 then do
        let (v, bs) ← parseTranslateValue env.flatParams bs
        pure ({ t with cx := some v }, bs)
      else
        pure (t, bs)
    let (b, bs) ← bs.readBit
    if b = 1 then do
      let (v, bs) ← parseTranslateValue env.flatParams bs
      pure ({ t with cy := some v }, bs)
    else
      pure (t, bs)
  else
    pure (t, bs)

/-- `WvgParser::parse_x_value`: one X coordinate, unsigned or signed per the
all-positive flag. -/
def parseXValue (flat : FlatCoordinateParams) (bs : BitStream) :
    WvgResult (Int × BitStream) :=
  if flat.xyAllPositive then
    (fun (v, bs') => ((v : Int), bs')) <$> readBits flat.maxXInBits bs
  else
    readSignedBits flat.maxXInBits bs

/-- `WvgParser::parse_y_value`: one Y coordinate, unsigned or signed per the
all-positive flag. -/
def parseYValue (flat : FlatCoordinateParams) (bs : BitStream) :
    WvgResult (Int × BitStream) :=
  if flat.xyAllPositive then
    (fun (v, bs') => ((v : Int), bs')) <$> readBits flat.maxYInBits bs
  else
    readSignedBits flat.maxYInBits bs

/-- The height block of `WvgParser::parse_array_parameter`: when more than
one row is present a gate bit selects either an explicit Y value or "same
as width". -/
def parseArrayHeight (flat : FlatCoordinateParams) (rows : Nat)
    (width : Option Int) (bs : BitStream) :
    WvgResult (Option Int × BitStream) := do
  if rows > 1 then do
    let (b, bs) ← bs.readBit
    if b = 1 then do
      let (h, bs) ← parseYValue flat bs
      pure (some h, bs)
    else
      pure (width, bs)
  else
    pure (none, bs)

/-- `WvgParser::parse_array_parameter`: 4-bit columns−1, a width value when
columns > 1, 4-bit rows−1, then the height block. -/
def parseArrayParameter (flat : FlatCoordinateParams) (bs : BitStream) :
    WvgResult (ArrayParams × BitStream) := do
  let (c, bs) ← readBits 4 bs
  let columns := c + 1
  let (width, bs) ←
    if columns > 1 then do
      let (w, bs) ← parseXValue flat bs
      pure (some w, bs)
    else
      pure ((none : Option Int), bs)
  let (r, bs) ← readBits 4 bs
  let rows := r + 1
  let (height, bs) ← parseArrayHeight flat rows width bs
  .ok (⟨columns, rows, width, height⟩, bs)

/-- `WvgParser::parse_override_attribute_set`: five independent
presence-gated override fields; line color and fill color are placeholder
black as in the source. -/
def parseOverrideAttributeSet (bs : BitStream) :
    WvgResult (ElementAttributes × BitStream) := do
  let attrs : ElementAttributes := {}
  let (b, bs) ← bs.readBit
  let (attrs, bs) ←
    if b = 1 then do
      let (v, bs) ← readBits 2 bs
      pure ({ attrs with lineType := some (LineType.fromValue v) }, bs)
    else
      pure (attrs, bs)
  let (b, bs) ← bs.readBit
  let (attrs, bs) ←
    if b = 1 then do
      let (v, bs) ← readBits 2 bs
      pure ({ attrs with lineWidth := some (LineWidth.fromValue v) }, bs)
    else
      pure (attrs, bs)
  let (b, bs) ← bs.readBit
  let (attrs, bs) ←
    if b = 1 then
      pure ({ attrs with lineColor := some Color.black }, bs)
    else
      pure (attrs, bs)
  let (b, bs) ← bs.readBit
  let (attrs, bs) ←
    if b = 1 then do
      let (f, bs) ← bs.readBit
      pure ({ attrs with fill := some (f = 1) }, bs)
    else
      pure (attrs, bs)
  let (b, bs) ← bs.readBit
  if b = 1 then
    .ok ({ attrs with fillColor := some Color.black }, bs)
  else
    .ok (attrs, bs)

/-- `WvgParser::parse_reuse_element`: a back-reference index of
`index_in_bits + 1` bits; when it is out of bounds against the elements
decoded so far, the most significant bit is masked off and the masked value
is kept only if it is in bounds — otherwise the source keeps the original
out-of-bounds index and continues (it never constructs
`ElementIndexOutOfBounds`).  Then a transform, an optional array block and
an optional override block. -/
def parseReuseElement (env : ParserEnv) (numElements : Nat) (bs : BitStream) :
    WvgResult (ReuseElement × BitStream) := do
  let idxBits := env.genericParams.indexInBits + 1
  let (rawIndex, bs) ← readBits idxBits bs
  let elemIndex :=
    if rawIndex ≥ numElements then
      let maskedIndex := rawIndex &&& (2 ^ (idxBits - 1) - 1)
      if maskedIndex < numElements then maskedIndex else rawIndex
    else
      rawIndex
  let (transform, bs) ← parseTransform env bs
  let (b, bs) ← bs.readBit
  let (arrayParams, bs) ←
    if b = 1 then do
      let (a, bs) ← parseArrayParameter env.flatParams bs
      pure (some a, bs)
    else
      pure ((none : Option ArrayParams), bs)
  let (b, bs) ← bs.readBit
  let (overrideAttributes, bs) ←
    if b = 1 then do
      let (a, bs) ← parseOverrideAttributeSet bs
      pure (some a, bs)
    else
      pure ((none : Option ElementAttributes), bs)
  .ok (⟨elemIndex, transform, arrayParams, overrideAttributes⟩, bs)

/-- `WvgParser::parse_group_element`: a discriminator bit — 0 starts a group
(optional transform, then a display bit), 1 ends one. -/
def parseGroupElement (env : ParserEnv) (bs : BitStream) :
    WvgResult (ElementData × BitStream) := do
  let (b, bs) ← bs.readBit
  if b = 0 then do
    let (hasT, bs) ← bs.readBit
    let (transform, bs) ←
      if hasT = 1 then do
        let (t, bs) ← parseTransform env bs
        pure (some t, bs)
      else
        pure ((none : Option Transform), bs)
    let (d, bs) ← bs.readBit
    .ok (.groupStart ⟨transform, d = 1⟩, bs)
  else
    .ok (.groupEnd, bs)

/-- The width of the element-type index field in `WvgParser::parse_element`,
as a function of the number of active element-mask flags. -/
def elementTypeBitCount (onesCount : Nat) : Nat :=
  if onesCount ≤ 1 then 0
  else if onesCount = 2 then 1
  else if onesCount ≤ 4 then 2
  else if onesCount ≤ 8 then 3
  else 4

/-- The mask-order lookup loop of `WvgParser::parse_element`: the decoded
index selects the position of the corresponding active flag, walking the
mask list in order. -/
def resolveElementType : List Bool → Nat → Option Nat
  | [], _ => none
  | true :: _, 0 => some 0
  | true :: rest, n + 1 => (resolveElementType rest n).map (· + 1)
  | false :: rest, n => (resolveElementType rest n).map (· + 1)

/-- The gated read of the element-type index in `WvgParser::parse_element`:
the field is only read from the stream when its width is positive, and is 0
otherwise. -/
def readElementTypeIdx (bits : Nat) (bs : BitStream) :
    WvgResult (Nat × BitStream) :=
  if bits > 0 then readBits bits bs else pure (0, bs)

/-- The element-type dispatch prefix of `WvgParser::parse_element`: compute
the index width from the count of active flags, read the index, and map it
to the position of the corresponding active flag, failing with
`InvalidElementType` when there is none. -/
def parseElementType (masks : List Bool) (bs : BitStream) :
    WvgResult (Nat × BitStream) := do
  let bits := elementTypeBitCount (masks.countP (fun x => x))
  let (elemTypeIdx, bs) ← readElementTypeIdx bits bs
  match resolveElementType masks elemTypeIdx with
  | some t => .ok (t, bs)
  | none => .error (.invalidElementType elemTypeIdx)

end WvgParser

/-! ## SVG rendering (`svg.rs`)

The renderer's `f64` arithmetic is embedded over `ℚ`.  The only `f64`
operation that is not exact is the square root in `chord_len`; the source
compares `chord_len` and `|e| = |r|·chord_len` against `1e-9` and otherwise
only uses them inside the radius, which the claims do not constrain, so the
embedding carries the squares `chordSq`, `eSq` and `radiusSq` instead and
compares them against `(1e-9)² = 1/10^18`.  At the integer chord vectors
and quantized offsets of a decoded document every such comparison is
decided with a margin far beyond one `f64` rounding step (a nonzero
`chordSq` is at least 1, a nonzero `eSq` at least `1/900`), so the rational
branch decisions coincide with the `f64` ones. -/

/-- An emitted path command of the circular-polyline renderer: either a
straight line to the endpoint or an elliptical arc with the given squared
radius and the large-arc and sweep flags (`svg.rs`,
`SvgContext::compute_arc_command`). -/
inductive PathCmd where
  | lineTo : Int → Int → PathCmd
  | arcTo : (radiusSq : ℚ) → (largeArc : Bool) → (sweep : Bool) → Int → Int → PathCmd
  deriving DecidableEq, Repr

namespace SvgContext

/-- The squared threshold `(1e-9)²` used by `compute_arc_command`. -/
def epsSq : ℚ := 1 / 10 ^ 18

/-- `SvgContext::compute_arc_command`: derive an arc (or degraded line)
from two endpoints and a curve offset.  `k = 2^n − 2` with `n` the active
curve-offset width, `r = offset / k`, `e = r·L`; negligible chord or bulge
degrade to a line; otherwise the radius is `(L²/4 + e²) / (2|e|)` (carried
squared here), the large-arc flag is `|r| > 0.5` and the sweep flag is
`offset > 0`. -/
def computeArcCommand (gp : GenericParams) (x1 y1 x2 y2 : Int) (offset : Int) :
    PathCmd :=
  let dx : ℚ := ((x2 - x1 : Int) : ℚ)
  let dy : ℚ := ((y2 - y1 : Int) : ℚ)
  let chordSq : ℚ := dx * dx + dy * dy
  if chordSq < epsSq then
    .lineTo x2 y2
  else
    let n := WvgParser.curveOffsetWidth gp
    let k : ℚ := ((2 ^ n - 2 : Nat) : ℚ)
    let r : ℚ := (offset : ℚ) / k
    let eSq : ℚ := r * r * chordSq
    if eSq < epsSq then
      .lineTo x2 y2
    else
      let radiusSq : ℚ := (chordSq / 4 + eSq) ^ 2 / (4 * eSq)
      .arcTo radiusSq (decide (1 / 2 < |r|)) (decide (0 < offset)) x2 y2

/-- The per-segment dispatch of `SvgContext::write_circular_polyline`: a
segment with curve offset 0 becomes a straight line command, any other a
call to `compute_arc_command`. -/
def circularSegmentCommand (gp : GenericParams) (x1 y1 x2 y2 : Int)
    (offset : Int) : PathCmd :=
  if offset = 0 then
    .lineTo x2 y2
  else
    computeArcCommand gp x1 y1 x2 y2 offset

/-- `SvgContext::new`: the derived angle resolution constant
`22.5 / 2^angle_resolution` (exact in `f64`, since only powers of two are
involved). -/
def angleResolutionOf (gp : GenericParams) : ℚ := (45 / 2) / 2 ^ gp.angleResolution

/-- `SvgContext::new`: the derived scale resolution constant
`0.25 / 2^scale_resolution` (exact in `f64`). -/
def scaleResolutionOf (gp : GenericParams) : ℚ := (1 / 4) / 2 ^ gp.scaleResolution

/-- One entry of the `parts` vector of `SvgContext::build_transform`. -/
inductive TransformPart where
  | translatePart : Int → Int → TransformPart
  | rotateCenterPart : (degrees : ℚ) → Int → Int → TransformPart
  | rotatePart : (degrees : ℚ) → TransformPart
  | scaleXYPart : ℚ → ℚ → TransformPart
  | scaleUniformPart : ℚ → TransformPart
  deriving DecidableEq, Repr

/-- `SvgContext::build_transform`: translate (omitted when both components
default to 0), rotation in degrees about an optional center, then scale
factors `1 + value · scale_resolution`; the match on the two optional scale
factors emits `scale(sx sy)` when both are present, `scale(sx)` when only X
is present, and nothing otherwise (in particular a present scale Y without
a scale X is dropped). -/
def buildTransform (angleResolution scaleResolution : ℚ) (t : Transform) :
    List TransformPart :=
  let tx := t.translateX.getD 0
  let ty := t.translateY.getD 0
  let translateParts : List TransformPart :=
    if tx ≠ 0 ∨ ty ≠ 0 then [.translatePart tx ty] else []
  let rotateParts : List TransformPart :=
    match t.angle with
    | some angleVal =>
      let degrees : ℚ := (angleVal : ℚ) * angleResolution
      let cx := t.cx.getD 0
      let cy := t.cy.getD 0
      if cx ≠ 0 ∨ cy ≠ 0 then [.rotateCenterPart degrees cx cy]
      else [.rotatePart degrees]
    | none => []
  let sx := t.scaleX.map (fun v => 1 + (v : ℚ) * scaleResolution)
  let sy := t.scaleY.map (fun v => 1 + (v : ℚ) * scaleResolution)
  let scaleParts : List TransformPart :=
    match sx, sy with
    | some sxVal, some syVal => [.scaleXYPart sxVal syVal]
    | some sxVal, none => [.scaleUniformPart sxVal]
    | _, _ => []
  translateParts ++ rotateParts ++ scaleParts

/-- One emitted `<use>` line of `SvgContext::write_reuse` or
`SvgContext::write_array_reuse`: the referenced element index and the
transform attribute's parts (for array instances the per-cell translation
is appended after the element's own transform; a zero cell translation is
omitted from the string, i.e. represented by the bare base transform). -/
structure UseInstance where
  ref : Nat
  transformParts : List TransformPart
  deriving DecidableEq, Repr

/-- `SvgContext::write_array_reuse`: `rows × columns` instances in row-major
order; the instance in column `col` of row `row` is translated by
`(col · width, row · height)` with `width = array.width.unwrap_or(0)` and
`height = array.height.unwrap_or(width)`. -/
def writeArrayReuse (ref : Nat) (array : ArrayParams)
    (baseTransform : List TransformPart) : List UseInstance :=
  let width := array.width.getD 0
  let height := array.height.getD width
  (List.range array.rows).flatMap fun (row : Nat) =>
    (List.range array.columns).map fun (col : Nat) =>
      let tx : Int := (col : Int) * width
      let ty : Int := (row : Int) * height
      let combined :=
        if tx ≠ 0 ∨ ty ≠ 0 then baseTransform ++ [.translatePart tx ty]
        else baseTransform
      ⟨ref, combined⟩

/-- `SvgContext::write_reuse`: one instance with the element's transform
when no array parameters are present, else the array instances. -/
def writeReuse (angleResolution scaleResolution : ℚ) (reuse : ReuseElement) :
    List UseInstance :=
  let baseTransform := buildTransform angleResolution scaleResolution reuse.transform
  match reuse.arrayParams with
  | some array => writeArrayReuse reuse.elementIndex array baseTransform
  | none => [⟨reuse.elementIndex, baseTransform⟩]

/-- The classes of output lines relevant to group balancing: a group
opening tag, a group closing tag, or any other emitted line. -/
inductive OutTag where
  | openGroup : (display : Bool) → OutTag
  | closeGroup : OutTag
  | content : OutTag
  deriving DecidableEq, Repr

/-- Whether an output line is a group opening tag. -/
def OutTag.isOpenTag : OutTag → Bool
  | .openGroup _ => true
  | _ => false

/-- Whether an output line is a group closing tag. -/
def OutTag.isCloseTag : OutTag → Bool
  | .closeGroup => true
  | _ => false

/-- `SvgContext::write_element`, projected to the emitted lines and the
group stack (head = innermost open group): `write_group_start` emits an
opening tag and pushes, `write_group_end` pops and emits a closing tag only
when the stack is non-empty, every other element kind only emits non-group
lines. -/
def writeElement (angleResolution scaleResolution : ℚ) (stack : List Bool) :
    ElementData → List OutTag × List Bool
  | .groupStart gs => ([.openGroup gs.display], true :: stack)
  | .groupEnd =>
    match stack with
    | [] => ([], [])
    | _ :: rest => ([.closeGroup], rest)
  | .polyline pl => (if pl.points.isEmpty then [] else [.content], stack)
  | .circularPolyline cp => (if cp.points.length < 2 then [] else [.content], stack)
  | .simpleShape _ => ([.content], stack)
  | .reuse reuse =>
    ((writeReuse angleResolution scaleResolution reuse).map fun _ => .content, stack)

/-- The element loop of `SvgContext::write_elements`, threading the group
stack and accumulating output lines. -/
def writeElementsLoop (angleResolution scaleResolution : ℚ) :
    List ElementData → List Bool → List OutTag × List Bool
  | [], stack => ([], stack)
  | e :: rest, stack =>
    let (out, stack') := writeElement angleResolution scaleResolution stack e
    let (outRest, stack'') := writeElementsLoop angleResolution scaleResolution rest stack'
    (out ++ outRest, stack'')

/-- `SvgContext::write_elements`: render every element, then close every
group still open on the stack (one closing tag per remaining entry, popped
innermost first). -/
def writeElements (angleResolution scaleResolution : ℚ)
    (elements : List ElementData) : List OutTag :=
  let r := writeElementsLoop angleResolution scaleResolution elements []
  r.1 ++ List.replicate r.2.length .closeGroup

end SvgContext

/-! ## Concrete fixtures

Small parser environments and streams used to evaluate the embedded
functions at concrete inputs. -/

/-- Flat coordinate parameters of a small test document: all-positive 7/5
bit coordinates, 2-bit point counts, 3-bit level-1 and 5-bit level-2
offsets. -/
def testFlatParams : FlatCoordinateParams :=
  { drawingWidth := 128, drawingHeight := 32, maxXInBits := 7, maxYInBits := 5,
    xyAllPositive := true, transXyInBits := 7, numPointsInBits := 2,
    offsetXInBitsLevel1 := 3, offsetYInBitsLevel1 := 3,
    offsetXInBitsLevel2 := 5, offsetYInBitsLevel2 := 5 }

/-- A parser environment with polyline, circular-polyline and reuse flags
active, no attribute masks, and default generic parameters
(`index_in_bits = 2`, so reuse indices are 3 bits wide). -/
def testEnv : ParserEnv :=
  { elementMasks := [false, true, true, false, false, true],
    attributeMasks := {}, genericParams := {}, flatParams := testFlatParams }

/-! ## Supporting lemmas -/

namespace BitStream

/-- A successful `readBit` advances the cursor by exactly one bit and keeps
the underlying data. -/
theorem readBit_ok {bs bs' : BitStream} {b : Nat}
    (h : bs.readBit = .ok (b, bs')) :
    bs'.bitIndex = bs.bitIndex + 1 ∧ bs'.data = bs.data := by
  unfold readBit at h
  split at h
  · split at h
    · rename_i hpos
      cases h
      constructor
      · simp only [bitIndex]
        omega
      · rfl
    · cases h
      constructor
      · simp only [bitIndex]
        omega
      · rfl
  · cases h

/-- A successful `readBitsAux` run of `n` steps advances the cursor by
exactly `n` bits and keeps the underlying data. -/
theorem readBitsAux_ok :
    ∀ {n acc : Nat} {bs bs' : BitStream} {v : Nat},
      readBitsAux n acc bs = .ok (v, bs') →
      bs'.bitIndex = bs.bitIndex + n ∧ bs'.data = bs.data := by
  intro n
  induction n with
  | zero =>
    intro acc bs bs' v h
    cases h
    exact ⟨rfl, rfl⟩
  | succ m ih =>
    intro acc bs bs' v h
    unfold readBitsAux at h
    cases hb : bs.readBit with
    | error e => rw [hb] at h; cases h
    | ok p =>
      obtain ⟨b, bs₁⟩ := p
      rw [hb] at h
      simp only [Bind.bind, Except.bind] at h
      obtain ⟨h1, h2⟩ := readBit_ok hb
      obtain ⟨h3, h4⟩ := ih h
      exact ⟨by omega, by rw [h4, h2]⟩

/-- A successful `readBits n` advances the cursor by exactly `n` bits. -/
theorem readBits_ok {n : Nat} {bs bs' : BitStream} {v : Nat}
    (h : readBits n bs = .ok (v, bs')) :
    bs'.bitIndex = bs.bitIndex + n ∧ bs'.data = bs.data :=
  readBitsAux_ok h

end BitStream

/-- C1: the decoder keeps a reuse back-reference whose MSB-masked index is
still out of bounds, returning it successfully instead of failing with
`ElementIndexOutOfBounds`.  With one decoded element and default 3-bit
index width, the stream `0b11100000` decodes the raw index 7 (≥ 1); the
masked index `7 & 0b011 = 3` is still ≥ 1, and `parse_reuse_element`
returns `Ok` carrying the original out-of-bounds index 7.  The second
conjunct shows the other branch of the heuristic: against 3 decoded
elements the raw index 5 masks to 1 < 3 and the masked index is stored. -/
theorem parseReuseElement_keeps_oob_index :
    WvgParser.parseReuseElement testEnv 1 (BitStream.new [0b11100000]) =
      .ok (⟨7, {}, none, none⟩, ⟨[0b11100000], 1, 0⟩) ∧
    WvgParser.parseReuseElement testEnv 3 (BitStream.new [0b10100000]) =
      .ok (⟨1, {}, none, none⟩, ⟨[0b10100000], 1, 0⟩) := by
  constructor <;> rfl

/-- C3: at bit width 32 with the sign bit set, `read_signed_bits` does not
return `u − 2^32`.  On the stream `0x80 00 00 00` the unsigned read yields
`u = 2^31`, so the claimed signed value is `2^31 − 2^32 = −2^31`; the
source's `val as i32 - (1 << n)` instead overflows (debug builds panic; in
release the shift amount masks to 0 and the wrapping subtraction produces
`2^31 − 1`). -/
theorem readSignedBits_32_overflows :
    BitStream.readBits 32 (BitStream.new [0x80, 0, 0, 0]) =
      .ok (2 ^ 31, ⟨[0x80, 0, 0, 0], 4, 0⟩) ∧
    BitStream.readSignedBits 32 (BitStream.new [0x80, 0, 0, 0]) =
      .ok (2 ^ 31 - 1, ⟨[0x80, 0, 0, 0], 4, 0⟩) ∧
    ((2 ^ 31 - 1 : Int) = (2 ^ 31 : Int) - 2 ^ 32) = False := by
  refine ⟨by rfl, by rfl, by decide⟩

/-- C5: the curve-offset field of a circular polyline is hint-gated: with
the curve hint set, a presence bit of 0 yields offset 0 with no further
bits consumed, and a presence bit of 1 is followed by a signed read of the
configured width; without the hint the signed value is read directly.  The
width is 5 bits exactly when the header's curve-offset-width parameter
decoded to 1 (the "5-bit" selection) and 4 bits otherwise. -/
theorem parseCurveOffset_hint_gated (gp : GenericParams) (bs bs₁ : BitStream)
    (b : Nat) :
    (bs.readBit = .ok (b, bs₁) →
      (b = 0 → WvgParser.parseCurveOffset gp true bs = .ok (0, bs₁)) ∧
      (b = 1 → WvgParser.parseCurveOffset gp true bs =
        BitStream.readSignedBits (WvgParser.curveOffsetWidth gp) bs₁)) ∧
    WvgParser.parseCurveOffset gp false bs =
      BitStream.readSignedBits (WvgParser.curveOffsetWidth gp) bs ∧
    (gp.curveOffsetInBits = some 1 → WvgParser.curveOffsetWidth gp = 5) ∧
    (gp.curveOffsetInBits ≠ some 1 → WvgParser.curveOffsetWidth gp = 4) := by
  refine ⟨?_, ?_, ?_, ?_⟩
  · intro hread
    unfold WvgParser.parseCurveOffset
    rw [if_pos rfl, hread]
    simp only [Bind.bind, Except.bind]
    constructor
    · intro hb
      rw [if_pos hb]
    · intro hb
      rw [hb, if_neg (by omega)]
  · unfold WvgParser.parseCurveOffset
    rw [if_neg (by simp)]
  · intro h
    unfold WvgParser.curveOffsetWidth
    rw [h]
    rfl
  · intro h
    unfold WvgParser.curveOffsetWidth
    rw [if_neg]
    intro hcontra
    cases hval : gp.curveOffsetInBits with
    | none => rw [hval] at hcontra; simp at hcontra
    | some v =>
      rw [hval] at hcontra
      simp only [Option.getD_some] at hcontra
      exact h (by rw [hval, hcontra])

/-- C5 witness: with default generic parameters (no curve-offset selection)
and the hint set, the stream `0x00` yields offset 0 after the single
presence bit, and the width is 4. -/
theorem parseCurveOffset_hint_gated_witness :
    WvgParser.parseCurveOffset {} true (BitStream.new [0]) =
      .ok (0, ⟨[0], 0, 1⟩) ∧ WvgParser.curveOffsetWidth {} = 4 := by
  have h := parseCurveOffset_hint_gated {} (BitStream.new [0]) ⟨[0], 0, 1⟩ 0
  exact ⟨(h.1 rfl).1 rfl, h.2.2.2 (by decide)⟩

/-- The numeric core of the arc branch decisions of `compute_arc_command`:
for an integer chord vector of nonzero length and a nonzero integer offset,
with `k` one of the two possible quantization ranges 14 and 30, the chord
and bulge are never negligible and the large-arc comparison `|r| > 1/2` is
equivalent to `2·|offset| > k`. -/
theorem arcBranchDecisions (k dx dy o : ℚ) (hk : k = 14 ∨ k = 30)
    (h1 : 1 ≤ dx * dx + dy * dy) (ho : 1 ≤ o * o) :
    ¬(dx * dx + dy * dy < SvgContext.epsSq) ∧
    ¬((o / k) * (o / k) * (dx * dx + dy * dy) < SvgContext.epsSq) ∧
    ((1 / 2 < |o / k|) ↔ k < 2 * |o|) := by
  have heps : SvgContext.epsSq = 1 / 10 ^ 18 := rfl
  have habs : 0 ≤ |o| := abs_nonneg o
  have hosq : o * o = |o| * |o| := (abs_mul_abs_self o).symm
  have hoabs : 1 ≤ |o| := by nlinarith [hosq, ho, habs]
  rcases hk with hk | hk <;> subst hk
  · refine ⟨by rw [heps]; intro h; linarith, ?_, ?_⟩
    · rw [heps]
      intro h
      have hexp : (o / 14) * (o / 14) * (dx * dx + dy * dy) =
          o * o * (dx * dx + dy * dy) * (1 / 196) := by ring
      rw [hexp] at h
      nlinarith [ho, h1]
    · rw [abs_div, show |(14 : ℚ)| = 14 by norm_num]
      constructor
      · intro h
        have := (div_lt_div_iff₀ (by norm_num) (by norm_num)).mp h
        linarith
      · intro h
        rw [div_lt_div_iff₀ (by norm_num) (by norm_num)]
        linarith
  · refine ⟨by rw [heps]; intro h; linarith, ?_, ?_⟩
    · rw [heps]
      intro h
      have hexp : (o / 30) * (o / 30) * (dx * dx + dy * dy) =
          o * o * (dx * dx + dy * dy) * (1 / 900) := by ring
      rw [hexp] at h
      nlinarith [ho, h1]
    · rw [abs_div, show |(30 : ℚ)| = 30 by norm_num]
      constructor
      · intro h
        have := (div_lt_div_iff₀ (by norm_num) (by norm_num)).mp h
        linarith
      · intro h
        rw [div_lt_div_iff₀ (by norm_num) (by norm_num)]
        linarith

/-- C2: for a circular-polyline segment between distinct endpoints with a
nonzero curve offset, the renderer emits an arc command whose large-arc
flag is set exactly when `2·|offset|` exceeds `k = 2^n − 2` (with `n` the
active curve-offset width, i.e. `|offset|/k > 1/2`) and whose sweep flag is
set exactly when the offset is positive; a segment with curve offset 0 is
emitted as a straight line command to the endpoint. -/
theorem circularSegment_arc_flags (gp : GenericParams) (x1 y1 x2 y2 offset : Int)
    (hne : ¬(x1 = x2 ∧ y1 = y2)) (hoff : offset ≠ 0) :
    (∃ rsq : ℚ, SvgContext.circularSegmentCommand gp x1 y1 x2 y2 offset =
        .arcTo rsq
          (decide ((2 ^ WvgParser.curveOffsetWidth gp - 2 : Int) < 2 * |offset|))
          (decide (0 < offset)) x2 y2) ∧
    SvgContext.circularSegmentCommand gp x1 y1 x2 y2 0 = .lineTo x2 y2 := by
  constructor
  · have h1 : (1 : ℚ) ≤ ((x2 - x1 : Int) : ℚ) * ((x2 - x1 : Int) : ℚ) +
        ((y2 - y1 : Int) : ℚ) * ((y2 - y1 : Int) : ℚ) := by
      have hz : (1 : ℤ) ≤ (x2 - x1) * (x2 - x1) + (y2 - y1) * (y2 - y1) := by
        rcases not_and_or.mp hne with h | h
        · have hx : x2 - x1 ≠ 0 := sub_ne_zero.mpr (fun hh => h hh.symm)
          nlinarith [Int.one_le_abs hx, abs_mul_abs_self (x2 - x1),
            mul_self_nonneg (y2 - y1), abs_nonneg (x2 - x1)]
        · have hy : y2 - y1 ≠ 0 := sub_ne_zero.mpr (fun hh => h hh.symm)
          nlinarith [Int.one_le_abs hy, abs_mul_abs_self (y2 - y1),
            mul_self_nonneg (x2 - x1), abs_nonneg (y2 - y1)]
      exact_mod_cast hz
    have ho : (1 : ℚ) ≤ (offset : ℚ) * (offset : ℚ) := by
      have hz : (1 : ℤ) ≤ offset * offset := by
        nlinarith [Int.one_le_abs hoff, abs_mul_abs_self offset, abs_nonneg offset]
      exact_mod_cast hz
    have hn : WvgParser.curveOffsetWidth gp = 4 ∨ WvgParser.curveOffsetWidth gp = 5 := by
      unfold WvgParser.curveOffsetWidth
      split <;> simp
    unfold SvgContext.circularSegmentCommand
    rw [if_neg hoff]
    simp only [SvgContext.computeArcCommand]
    rcases hn with hn | hn <;> rw [hn]
    · rw [show ((2 ^ 4 - 2 : Nat) : ℚ) = 14 by norm_num,
        show (2 ^ 4 - 2 : Int) = 14 by norm_num]
      obtain ⟨hc, he, hiff⟩ := arcBranchDecisions 14 ((x2 - x1 : Int) : ℚ)
        ((y2 - y1 : Int) : ℚ) (offset : ℚ) (Or.inl rfl) h1 ho
      rw [if_neg hc, if_neg he]
      have hcast : ((14 : ℚ) < 2 * |(offset : ℚ)|) ↔ ((14 : Int) < 2 * |offset|) := by
        norm_cast
      rw [decide_eq_decide.mpr (hiff.trans hcast)]
      exact ⟨_, rfl⟩
    · rw [show ((2 ^ 5 - 2 : Nat) : ℚ) = 30 by norm_num,
        show (2 ^ 5 - 2 : Int) = 30 by norm_num]
      obtain ⟨hc, he, hiff⟩ := arcBranchDecisions 30 ((x2 - x1 : Int) : ℚ)
        ((y2 - y1 : Int) : ℚ) (offset : ℚ) (Or.inr rfl) h1 ho
      rw [if_neg hc, if_neg he]
      have hcast : ((30 : ℚ) < 2 * |(offset : ℚ)|) ↔ ((30 : Int) < 2 * |offset|) := by
        norm_cast
      rw [decide_eq_decide.mpr (hiff.trans hcast)]
      exact ⟨_, rfl⟩
  · unfold SvgContext.circularSegmentCommand
    rw [if_pos rfl]

/-- C2 witness: the first arc of the sample fixture, chord (3,15)–(16,15)
with curve offset −6 at 4-bit curve-offset width: an arc with both flags
clear, and the zero-offset segment degrades to a line. -/
theorem circularSegment_arc_flags_witness :
    (∃ rsq : ℚ, SvgContext.circularSegmentCommand {} 3 15 16 15 (-6) =
        .arcTo rsq
          (decide ((2 ^ WvgParser.curveOffsetWidth {} - 2 : Int) < 2 * |(-6 : Int)|))
          (decide ((0 : Int) < -6)) 16 15) ∧
    SvgContext.circularSegmentCommand {} 3 15 16 15 0 = .lineTo 16 15 :=
  circularSegment_arc_flags {} 3 15 16 15 (-6) (by decide) (by decide)

/-- `readBit` can only fail with `EndOfStream`. -/
theorem readBit_error {bs : BitStream} {e : WvgError}
    (h : bs.readBit = .error e) : e = .endOfStream := by
  unfold BitStream.readBit at h
  split at h
  · split at h <;> cases h
  · cases h
    rfl

/-- `readBitsAux` can only fail with `EndOfStream`. -/
theorem readBitsAux_error :
    ∀ {n acc : Nat} {bs : BitStream} {e : WvgError},
      BitStream.readBitsAux n acc bs = .error e → e = .endOfStream := by
  intro n
  induction n with
  | zero =>
    intro acc bs e h
    cases h
  | succ m ih =>
    intro acc bs e h
    unfold BitStream.readBitsAux at h
    cases hb : bs.readBit with
    | error e' =>
      rw [hb] at h
      simp only [Bind.bind, Except.bind] at h
      cases h
      exact readBit_error hb
    | ok p =>
      rw [hb] at h
      simp only [Bind.bind, Except.bind] at h
      exact ih h

/-- `readBits` can only fail with `EndOfStream`. -/
theorem readBits_error {n : Nat} {bs : BitStream} {e : WvgError}
    (h : BitStream.readBits n bs = .error e) : e = .endOfStream :=
  readBitsAux_error h

/-- The gated element-type index read agrees with a plain `readBits` of
the same width (a zero-width read consumes nothing and yields 0). -/
theorem readElementTypeIdx_eq (bits : Nat) (bs : BitStream) :
    WvgParser.readElementTypeIdx bits bs = BitStream.readBits bits bs := by
  unfold WvgParser.readElementTypeIdx
  cases bits with
  | zero => rfl
  | succ m => rw [if_pos (Nat.succ_pos m)]

/-- A resolved element type is the position of the `(idx + 1)`-th active
flag: the flag at the returned position is set and exactly `idx` flags are
set before it. -/
theorem resolveElementType_some :
    ∀ (masks : List Bool) (i p : Nat),
      WvgParser.resolveElementType masks i = some p →
      masks.get? p = some true ∧ (masks.take p).countP (fun x => x) = i := by
  intro masks
  induction masks with
  | nil =>
    intro i p h
    cases h
  | cons b rest ih =>
    intro i p h
    cases b with
    | true =>
      cases i with
      | zero =>
        cases h
        exact ⟨rfl, rfl⟩
      | succ j =>
        unfold WvgParser.resolveElementType at h
        cases hq : WvgParser.resolveElementType rest j with
        | none => rw [hq] at h; cases h
        | some q =>
          rw [hq] at h
          obtain ⟨h1, h2⟩ := ih j q hq
          cases h
          refine ⟨h1, ?_⟩
          simp [List.countP_cons, h2]
    | false =>
      unfold WvgParser.resolveElementType at h
      cases hq : WvgParser.resolveElementType rest i with
      | none => rw [hq] at h; cases h
      | some q =>
        rw [hq] at h
        obtain ⟨h1, h2⟩ := ih i q hq
        cases h
        refine ⟨h1, ?_⟩
        simp [List.countP_cons, h2]

/-- The mask-order lookup fails exactly when fewer than `i + 1` flags are
set. -/
theorem resolveElementType_none :
    ∀ (masks : List Bool) (i : Nat),
      WvgParser.resolveElementType masks i = none ↔
        masks.countP (fun x => x) ≤ i := by
  intro masks
  induction masks with
  | nil =>
    intro i
    simp [WvgParser.resolveElementType]
  | cons b rest ih =>
    intro i
    cases b with
    | true =>
      cases i with
      | zero =>
        simp [WvgParser.resolveElementType, List.countP_cons]
      | succ j =>
        constructor
        · intro h
          unfold WvgParser.resolveElementType at h
          cases hq : WvgParser.resolveElementType rest j with
          | none =>
            have := (ih j).mp hq
            simp only [List.countP_cons]
            simp
            omega
          | some q =>
            rw [hq] at h
            simp at h
        · intro h
          unfold WvgParser.resolveElementType
          have hle : rest.countP (fun x => x) ≤ j := by
            simp only [List.countP_cons] at h
            simp at h
            omega
          rw [(ih j).mpr hle]
          rfl
    | false =>
      constructor
      · intro h
        unfold WvgParser.resolveElementType at h
        cases hq : WvgParser.resolveElementType rest i with
        | none =>
          have := (ih i).mp hq
          simp only [List.countP_cons]
          simpa using this
        | some q =>
          rw [hq] at h
          simp at h
      · intro h
        unfold WvgParser.resolveElementType
        have hle : rest.countP (fun x => x) ≤ i := by
          simp only [List.countP_cons] at h
          simpa using h
        rw [(ih i).mpr hle]
        rfl

/-- C4: the element-type index field width is the documented step function
of the number of active element-mask flags (0–1 flags → 0 bits, 2 → 1,
3–4 → 2, 5–8 → 3, 9 or more → 4); the decoded index is mapped to the
position of the `(idx + 1)`-th active flag in mask order, and when fewer
than `idx + 1` flags are active decoding fails with `InvalidElementType`
carrying the decoded index. -/
theorem elementTypeDispatch (masks : List Bool) (bs : BitStream) :
    (∀ c : Nat,
      (c ≤ 1 → WvgParser.elementTypeBitCount c = 0) ∧
      (c = 2 → WvgParser.elementTypeBitCount c = 1) ∧
      (3 ≤ c → c ≤ 4 → WvgParser.elementTypeBitCount c = 2) ∧
      (5 ≤ c → c ≤ 8 → WvgParser.elementTypeBitCount c = 3) ∧
      (9 ≤ c → WvgParser.elementTypeBitCount c = 4)) ∧
    (∀ t bs₁, WvgParser.parseElementType masks bs = .ok (t, bs₁) →
      bs₁.bitIndex = bs.bitIndex +
        WvgParser.elementTypeBitCount (masks.countP (fun x => x)) ∧
      ∃ idx,
        BitStream.readBits (WvgParser.elementTypeBitCount (masks.countP (fun x => x)))
            bs = .ok (idx, bs₁) ∧
        masks.get? t = some true ∧ (masks.take t).countP (fun x => x) = idx) ∧
    (∀ idx, WvgParser.parseElementType masks bs = .error (.invalidElementType idx) →
      masks.countP (fun x => x) ≤ idx) ∧
    (∀ idx bs₁,
      BitStream.readBits (WvgParser.elementTypeBitCount (masks.countP (fun x => x)))
          bs = .ok (idx, bs₁) →
      masks.countP (fun x => x) ≤ idx →
      WvgParser.parseElementType masks bs = .error (.invalidElementType idx)) := by
  refine ⟨?_, ?_, ?_, ?_⟩
  · intro c
    refine ⟨?_, ?_, ?_, ?_, ?_⟩ <;>
      · intros
        unfold WvgParser.elementTypeBitCount
        split_ifs <;> omega
  · intro t bs₁ h
    simp only [WvgParser.parseElementType] at h
    rw [readElementTypeIdx_eq] at h
    cases hr : BitStream.readBits
        (WvgParser.elementTypeBitCount (masks.countP (fun x => x))) bs with
    | error e =>
      rw [hr] at h
      cases h
    | ok p =>
      obtain ⟨idx, bs₂⟩ := p
      rw [hr] at h
      simp only [Bind.bind, Except.bind] at h
      cases hres : WvgParser.resolveElementType masks idx with
      | none =>
        rw [hres] at h
        cases h
      | some tt =>
        rw [hres] at h
        injection h with hpair
        injection hpair with ht hbs
        subst ht
        subst hbs
        obtain ⟨hget, htake⟩ := resolveElementType_some masks idx tt hres
        exact ⟨(BitStream.readBits_ok hr).1, idx, rfl, hget, htake⟩
  · intro idx h
    simp only [WvgParser.parseElementType] at h
    rw [readElementTypeIdx_eq] at h
    cases hr : BitStream.readBits
        (WvgParser.elementTypeBitCount (masks.countP (fun x => x))) bs with
    | error e =>
      rw [hr] at h
      cases h
      exact absurd (readBits_error hr) (by intro hh; cases hh)
    | ok p =>
      obtain ⟨idx2, bs₂⟩ := p
      rw [hr] at h
      simp only [Bind.bind, Except.bind] at h
      cases hres : WvgParser.resolveElementType masks idx2 with
      | none =>
        rw [hres] at h
        cases h
        exact (resolveElementType_none masks idx).mp hres
      | some tt =>
        rw [hres] at h
        cases h
  · intro idx bs₁ hr hle
    simp only [WvgParser.parseElementType]
    rw [readElementTypeIdx_eq, hr]
    simp only [Bind.bind, Except.bind]
    rw [(resolveElementType_none masks idx).mpr hle]

/-- C4 witness: with active flags at positions 1, 2 and 5 (count 3, hence a
2-bit index field) and the stream `0b10000000`, the decoded index 2 maps to
the third active flag, position 5, consuming exactly 2 bits; on the stream
`0b11000000` the decoded index 3 exceeds the three active flags and parsing
fails with `InvalidElementType 3`. -/
theorem elementTypeDispatch_witness :
    WvgParser.elementTypeBitCount 3 = 2 ∧
    (BitStream.mk [128] 0 2).bitIndex = (BitStream.new [128]).bitIndex +
      WvgParser.elementTypeBitCount
        ([false, true, true, false, false, true].countP (fun x => x)) ∧
    (∃ idx,
      BitStream.readBits
          (WvgParser.elementTypeBitCount
            ([false, true, true, false, false, true].countP (fun x => x)))
          (BitStream.new [128]) = .ok (idx, BitStream.mk [128] 0 2) ∧
      [false, true, true, false, false, true].get? 5 = some true ∧
      ([false, true, true, false, false, true].take 5).countP (fun x => x) = idx) ∧
    WvgParser.parseElementType [false, true, true, false, false, true]
      (BitStream.new [192]) = .error (.invalidElementType 3) := by
  have h := elementTypeDispatch [false, true, true, false, false, true]
    (BitStream.new [128])
  have hok := h.2.1 5 (BitStream.mk [128] 0 2) (by rfl)
  have herr := (elementTypeDispatch [false, true, true, false, false, true]
    (BitStream.new [192])).2.2.2 3 (BitStream.mk [192] 0 2) (by rfl) (by decide)
  exact ⟨(h.1 3).2.2.1 (by omega) (by omega), hok.1, hok.2, herr⟩

/-- Length of a row-major grid built by `flatMap` over ranges. -/
theorem gridFlatMap_length {α : Type _} (f : Nat → Nat → α) (rows cols : Nat) :
    ((List.range rows).flatMap fun r => (List.range cols).map (f r)).length =
      rows * cols := by
  induction rows with
  | zero => simp
  | succ n ih =>
    rw [List.range_succ, List.flatMap_append, List.length_append, ih,
      List.flatMap_cons, List.flatMap_nil, List.append_nil, List.length_map,
      List.length_range]
    ring

/-- Row-major indexing of a grid built by `flatMap` over ranges. -/
theorem gridFlatMap_get {α : Type _} (f : Nat → Nat → α) (rows cols i j : Nat)
    (hi : i < rows) (hj : j < cols) :
    ((List.range rows).flatMap fun r => (List.range cols).map (f r))[i * cols + j]? =
      some (f i j) := by
  induction rows with
  | zero => omega
  | succ n ih =>
    rw [List.range_succ, List.flatMap_append]
    rcases Nat.lt_or_ge i n with hlt | hge
    · rw [List.getElem?_append_left]
      · exact ih hlt
      · rw [gridFlatMap_length f n cols]
        calc i * cols + j < i * cols + cols := by omega
          _ = (i + 1) * cols := by ring
          _ ≤ n * cols := Nat.mul_le_mul_right cols hlt
    · have hie : i = n := by omega
      subst hie
      rw [List.getElem?_append_right (by rw [gridFlatMap_length f i cols]; omega)]
      rw [gridFlatMap_length f i cols]
      simp only [List.flatMap_cons, List.flatMap_nil, List.append_nil]
      rw [show i * cols + j - i * cols = j from by omega,
        List.getElem?_map, List.getElem?_range hj]
      rfl

/-- C7: a reuse element without array parameters renders as exactly one
instance referencing the target with the element's transform; with array
parameters it renders `rows · columns` instances in row-major order, the
instance at `(row, col)` carrying the additional translation
`(col · width, row · height)` appended after the element's own transform (a
zero translation being omitted as the identity), with the height
defaulting to the width; and the parser's height block stores the width as
the height whenever the explicit-height gate bit is 0. -/
theorem reuseInstances (angleRes scaleRes : ℚ) (reuse : ReuseElement) :
    (reuse.arrayParams = none →
      SvgContext.writeReuse angleRes scaleRes reuse =
        [⟨reuse.elementIndex,
          SvgContext.buildTransform angleRes scaleRes reuse.transform⟩]) ∧
    (∀ a, reuse.arrayParams = some a →
      (SvgContext.writeReuse angleRes scaleRes reuse).length = a.rows * a.columns ∧
      (∀ row col, row < a.rows → col < a.columns →
        (SvgContext.writeReuse angleRes scaleRes reuse)[row * a.columns + col]? =
          some ⟨reuse.elementIndex,
            if (col : Int) * a.width.getD 0 ≠ 0 ∨
                (row : Int) * a.height.getD (a.width.getD 0) ≠ 0 then
              SvgContext.buildTransform angleRes scaleRes reuse.transform ++
                [.translatePart ((col : Int) * a.width.getD 0)
                  ((row : Int) * a.height.getD (a.width.getD 0))]
            else
              SvgContext.buildTransform angleRes scaleRes reuse.transform⟩)) ∧
    (∀ flat rows width bs bs', 1 < rows → bs.readBit = .ok (0, bs') →
      WvgParser.parseArrayHeight flat rows width bs = .ok (width, bs')) := by
  refine ⟨?_, ?_, ?_⟩
  · intro h
    unfold SvgContext.writeReuse
    rw [h]
  · intro a ha
    unfold SvgContext.writeReuse
    rw [ha]
    simp only [SvgContext.writeArrayReuse]
    constructor
    · exact gridFlatMap_length _ a.rows a.columns
    · intro row col hrow hcol
      exact gridFlatMap_get _ a.rows a.columns row col hrow hcol
  · intro flat rows width bs bs' hrows hread
    unfold WvgParser.parseArrayHeight
    rw [if_pos hrows, hread]
    simp only [Bind.bind, Except.bind]
    rw [if_neg (by omega)]
    rfl

/-- C7 witness: a reuse of element 2 with a 2-row × 3-column array of width
10 and defaulted height renders 6 instances, the one at row 1, column 2
carrying the appended translation (20, 10); and the parser's height block
on a 0 gate bit copies the width. -/
theorem reuseInstances_witness :
    (SvgContext.writeReuse 1 1
        ⟨2, {}, some ⟨3, 2, some 10, none⟩, none⟩).length = 2 * 3 ∧
    (SvgContext.writeReuse 1 1
        ⟨2, {}, some ⟨3, 2, some 10, none⟩, none⟩)[1 * 3 + 2]? =
      some ⟨2,
        if ((2 : Nat) : Int) * (some (10 : Int)).getD 0 ≠ 0 ∨
            ((1 : Nat) : Int) * (none : Option Int).getD ((some (10 : Int)).getD 0) ≠ 0 then
          SvgContext.buildTransform 1 1 {} ++
            [.translatePart (((2 : Nat) : Int) * (some (10 : Int)).getD 0)
              (((1 : Nat) : Int) * (none : Option Int).getD ((some (10 : Int)).getD 0))]
        else
          SvgContext.buildTransform 1 1 {}⟩ ∧
    WvgParser.parseArrayHeight testFlatParams 2 (some 10) (BitStream.new [0]) =
      .ok (some 10, ⟨[0], 0, 1⟩) := by
  have h := reuseInstances 1 1 ⟨2, {}, some ⟨3, 2, some 10, none⟩, none⟩
  have ha := h.2.1 ⟨3, 2, some 10, none⟩ rfl
  exact ⟨ha.1, ha.2 1 2 (by decide) (by decide),
    h.2.2 testFlatParams 2 (some 10) (BitStream.new [0]) ⟨[0], 0, 1⟩ (by omega) rfl⟩

/-- `countP` over a constant list. -/
theorem countP_replicate_tag (p : SvgContext.OutTag → Bool) (a : SvgContext.OutTag)
    (n : Nat) :
    (List.replicate n a).countP p = if p a then n else 0 := by
  induction n with
  | zero => simp
  | succ m ih =>
    simp only [List.replicate_succ, List.countP_cons, ih]
    split <;> omega

/-- Per-element group balance: emitted opening tags grow the stack, emitted
closing tags shrink it, and other output leaves it unchanged. -/
theorem writeElement_balance (angleRes scaleRes : ℚ) (stack : List Bool)
    (e : ElementData) :
    (SvgContext.writeElement angleRes scaleRes stack e).1.countP
        SvgContext.OutTag.isOpenTag + stack.length =
      (SvgContext.writeElement angleRes scaleRes stack e).1.countP
        SvgContext.OutTag.isCloseTag +
        (SvgContext.writeElement angleRes scaleRes stack e).2.length := by
  cases e with
  | groupStart gs =>
    simp only [SvgContext.writeElement, List.countP_cons, List.countP_nil,
      SvgContext.OutTag.isOpenTag, SvgContext.OutTag.isCloseTag, List.length_cons]
    simp
    omega
  | groupEnd =>
    cases stack with
    | nil => simp [SvgContext.writeElement]
    | cons top rest =>
      simp only [SvgContext.writeElement, List.countP_cons, List.countP_nil,
        SvgContext.OutTag.isOpenTag, SvgContext.OutTag.isCloseTag, List.length_cons]
      simp
      omega
  | polyline pl =>
    by_cases hp : pl.points.isEmpty <;>
      simp [SvgContext.writeElement, hp, List.countP_cons,
        SvgContext.OutTag.isOpenTag, SvgContext.OutTag.isCloseTag]
  | circularPolyline cp =>
    by_cases hp : cp.points.length < 2 <;>
      simp [SvgContext.writeElement, hp, List.countP_cons,
        SvgContext.OutTag.isOpenTag, SvgContext.OutTag.isCloseTag]
  | simpleShape ss =>
    simp [SvgContext.writeElement, List.countP_cons,
      SvgContext.OutTag.isOpenTag, SvgContext.OutTag.isCloseTag]
  | reuse r =>
    simp [SvgContext.writeElement, List.countP_map, Function.comp_def,
      countP_replicate_tag, SvgContext.OutTag.isOpenTag,
      SvgContext.OutTag.isCloseTag]

/-- Loop-level group balance: across the main element loop, opening tags
emitted plus the initial stack size equal closing tags emitted plus the
final stack size. -/
theorem writeElementsLoop_balance (angleRes scaleRes : ℚ) :
    ∀ (elements : List ElementData) (stack : List Bool),
      (SvgContext.writeElementsLoop angleRes scaleRes elements stack).1.countP
          SvgContext.OutTag.isOpenTag + stack.length =
        (SvgContext.writeElementsLoop angleRes scaleRes elements stack).1.countP
          SvgContext.OutTag.isCloseTag +
          (SvgContext.writeElementsLoop angleRes scaleRes elements stack).2.length := by
  intro elements
  induction elements with
  | nil =>
    intro stack
    simp [SvgContext.writeElementsLoop]
  | cons e rest ih =>
    intro stack
    have h1 := writeElement_balance angleRes scaleRes stack e
    have h2 := ih (SvgContext.writeElement angleRes scaleRes stack e).2
    simp only [SvgContext.writeElementsLoop, List.countP_append]
    omega

/-- A run of closing tags contains no opening tag and only closing tags. -/
theorem replicate_close_counts (n : Nat) :
    (List.replicate n SvgContext.OutTag.closeGroup).countP
        SvgContext.OutTag.isOpenTag = 0 ∧
      (List.replicate n SvgContext.OutTag.closeGroup).countP
        SvgContext.OutTag.isCloseTag = n := by
  induction n with
  | zero => exact ⟨rfl, rfl⟩
  | succ m ih =>
    simp only [List.replicate_succ, List.countP_cons]
    refine ⟨?_, ?_⟩
    · rw [ih.1]
      rfl
    · rw [ih.2]
      simp [SvgContext.OutTag.isCloseTag]

/-- Close-open balance of the full rendering: every opened group container
is eventually closed. -/
theorem writeElements_close_eq_open (angleRes scaleRes : ℚ)
    (elements : List ElementData) :
    (SvgContext.writeElements angleRes scaleRes elements).countP
        SvgContext.OutTag.isCloseTag =
      (SvgContext.writeElements angleRes scaleRes elements).countP
        SvgContext.OutTag.isOpenTag := by
  have hbal := writeElementsLoop_balance angleRes scaleRes elements []
  simp only [List.length_nil] at hbal
  simp only [SvgContext.writeElements, List.countP_append,
    countP_replicate_tag]
  simp only [SvgContext.OutTag.isOpenTag, SvgContext.OutTag.isCloseTag,
    if_true, if_false, Bool.false_eq_true, ite_false, ite_true]
  omega

/-- C8: after the last element the renderer emits one closing tag for each
group still open on its stack, so the full output closes every opened
group container; and a group element decodes successfully from its bits
alone — a group start parses to a `GroupStart` element with no reference
to any nesting state, so unmatched opens are never a decode error. -/
theorem trailingGroupsClosed (angleRes scaleRes : ℚ)
    (elements : List ElementData) :
    SvgContext.writeElements angleRes scaleRes elements =
      (SvgContext.writeElementsLoop angleRes scaleRes elements []).1 ++
        List.replicate
          (SvgContext.writeElementsLoop angleRes scaleRes elements []).2.length
          SvgContext.OutTag.closeGroup ∧
    (SvgContext.writeElements angleRes scaleRes elements).countP
        SvgContext.OutTag.isCloseTag =
      (SvgContext.writeElements angleRes scaleRes elements).countP
        SvgContext.OutTag.isOpenTag ∧
    (∀ env bs bs₁ bs₂ b bs₃,
      bs.readBit = .ok (0, bs₁) → bs₁.readBit = .ok (0, bs₂) →
      bs₂.readBit = .ok (b, bs₃) →
      WvgParser.parseGroupElement env bs =
        .ok (.groupStart ⟨none, b = 1⟩, bs₃)) := by
  refine ⟨?_, writeElements_close_eq_open angleRes scaleRes elements, ?_⟩
  · rfl
  · intro env bs bs₁ bs₂ b bs₃ h0 h1 h2
    unfold WvgParser.parseGroupElement
    rw [h0]
    simp [Bind.bind, Except.bind, h1, h2, pure, Except.pure]

/-- C8 witness: rendering one unmatched group start yields exactly the
opening tag followed by one automatic closing tag, and the three zero bits
of the stream `0x00` decode to a non-displayed group start. -/
theorem trailingGroupsClosed_witness :
    SvgContext.writeElements 1 1 [.groupStart ⟨none, true⟩] =
      (SvgContext.writeElementsLoop 1 1 [.groupStart ⟨none, true⟩] []).1 ++
        List.replicate
          (SvgContext.writeElementsLoop 1 1 [.groupStart ⟨none, true⟩] []).2.length
          SvgContext.OutTag.closeGroup ∧
    WvgParser.parseGroupElement testEnv (BitStream.new [0]) =
      .ok (.groupStart ⟨none, (0 : Nat) = 1⟩, ⟨[0], 0, 3⟩) := by
  have h := trailingGroupsClosed 1 1 [ElementData.groupStart ⟨none, true⟩]
  exact ⟨h.1, h.2.2 testEnv (BitStream.new [0]) ⟨[0], 0, 1⟩ ⟨[0], 0, 2⟩ 0
    ⟨[0], 0, 3⟩ rfl rfl rfl⟩

/-- C10: a group-end element rendered with an empty group stack emits
nothing, and consequently the number of closing tags in any rendered
output never exceeds the number of group containers opened. -/
theorem groupEndNeverOvercloses (angleRes scaleRes : ℚ)
    (elements : List ElementData) :
    SvgContext.writeElement angleRes scaleRes [] .groupEnd = ([], []) ∧
    (SvgContext.writeElements angleRes scaleRes elements).countP
        SvgContext.OutTag.isCloseTag ≤
      (SvgContext.writeElements angleRes scaleRes elements).countP
        SvgContext.OutTag.isOpenTag := by
  exact ⟨rfl, le_of_eq (writeElements_close_eq_open angleRes scaleRes elements)⟩

/-- The polyline accumulation loop appends exactly one point per decoded
offset. -/
theorem parsePolylinePoints_length (flat : FlatCoordinateParams) (ox oy : Bool) :
    ∀ (n : Nat) (last : Point) (bs bs' : BitStream) (pts : List Point),
      WvgParser.parsePolylinePoints flat ox oy n last bs = .ok (pts, bs') →
      pts.length = n := by
  intro n
  induction n with
  | zero =>
    intro last bs bs' pts h
    cases h
    rfl
  | succ m ih =>
    intro last bs bs' pts h
    unfold WvgParser.parsePolylinePoints at h
    cases ho : WvgParser.parseOffset flat ox oy bs with
    | error e => rw [ho] at h; cases h
    | ok p =>
      obtain ⟨⟨dx, dy⟩, bs₁⟩ := p
      rw [ho] at h
      simp only [Bind.bind, Except.bind] at h
      cases hr : WvgParser.parsePolylinePoints flat ox oy m
          ⟨last.x + dx, last.y + dy⟩ bs₁ with
      | error e => rw [hr] at h; cases h
      | ok q =>
        obtain ⟨rest, bs₂⟩ := q
        rw [hr] at h
        simp only [Bind.bind, Except.bind] at h
        cases h
        simp [ih _ _ _ _ hr]

/-- The circular-polyline trailing loop appends exactly one relative
(non-absolute) point per iteration. -/
theorem parseCircularPoints_spec (env : ParserEnv) (hint ox oy : Bool) :
    ∀ (n : Nat) (bs bs' : BitStream) (pts : List CircularPoint),
      WvgParser.parseCircularPoints env hint ox oy n bs = .ok (pts, bs') →
      pts.length = n ∧ ∀ cpt ∈ pts, cpt.isAbsolute = false := by
  intro n
  induction n with
  | zero =>
    intro bs bs' pts h
    cases h
    exact ⟨rfl, by simp⟩
  | succ m ih =>
    intro bs bs' pts h
    unfold WvgParser.parseCircularPoints at h
    cases hc : WvgParser.parseCurveOffset env.genericParams hint bs with
    | error e => rw [hc] at h; cases h
    | ok p =>
      obtain ⟨offset, bs₁⟩ := p
      rw [hc] at h
      simp only [Bind.bind, Except.bind] at h
      cases ho : WvgParser.parseOffset env.flatParams ox oy bs₁ with
      | error e => rw [ho] at h; cases h
      | ok q =>
        obtain ⟨⟨dx, dy⟩, bs₂⟩ := q
        rw [ho] at h
        simp only [Bind.bind, Except.bind] at h
        cases hr : WvgParser.parseCircularPoints env hint ox oy m bs₂ with
        | error e => rw [hr] at h; cases h
        | ok r =>
          obtain ⟨rest, bs₃⟩ := r
          rw [hr] at h
          simp only [Bind.bind, Except.bind] at h
          cases h
          obtain ⟨hlen, habs⟩ := ih _ _ _ hr
          refine ⟨by simp [hlen], ?_⟩
          intro cpt hmem
          rcases List.mem_cons.mp hmem with hh | hh
          · rw [hh]
          · exact habs cpt hh

/-- C9: a successfully decoded polyline whose point-count field decoded to
`c` carries exactly `c + 1` points (the absolute first point plus `c`
accumulated offsets); a successfully decoded circular polyline whose count
decoded to `c` carries exactly `c + 2` points, its first entry has curve
offset 0, and exactly its first two entries are marked absolute. -/
theorem pointCounts (env : ParserEnv) (bs : BitStream) :
    (∀ hdr bs₁ c bs₂ pl bs₃,
      WvgParser.parseBasicElementHeader env bs = .ok (hdr, bs₁) →
      BitStream.readBits env.flatParams.numPointsInBits bs₁ = .ok (c, bs₂) →
      WvgParser.parsePolylineElement env bs = .ok (pl, bs₃) →
      pl.points.length = c + 1) ∧
    (∀ hdr bs₁ ch bs₂ c bs₃ cp bs₄,
      WvgParser.parseBasicElementHeader env bs = .ok (hdr, bs₁) →
      bs₁.readBit = .ok (ch, bs₂) →
      BitStream.readBits env.flatParams.numPointsInBits bs₂ = .ok (c, bs₃) →
      WvgParser.parseCircularPolylineElement env bs = .ok (cp, bs₄) →
      cp.points.length = c + 2 ∧
      (∀ p₀, cp.points[0]? = some p₀ → p₀.curveOffset = 0 ∧ p₀.isAbsolute = true) ∧
      (∀ p₁, cp.points[1]? = some p₁ → p₁.isAbsolute = true) ∧
      (∀ i p, 2 ≤ i → cp.points[i]? = some p → p.isAbsolute = false)) := by
  constructor
  · intro hdr bs₁ c bs₂ pl bs₃ hhdr hcount hok
    obtain ⟨attrs, oxu, oyu⟩ := hdr
    unfold WvgParser.parsePolylineElement at hok
    rw [hhdr] at hok
    simp only [Bind.bind, Except.bind] at hok
    rw [hcount] at hok
    simp only [Bind.bind, Except.bind] at hok
    cases hpt : WvgParser.parsePoint env.flatParams bs₂ with
    | error e => rw [hpt] at hok; cases hok
    | ok p =>
      obtain ⟨firstPoint, bs₄⟩ := p
      rw [hpt] at hok
      simp only [Bind.bind, Except.bind] at hok
      cases hloop : WvgParser.parsePolylinePoints env.flatParams oxu oyu c
          firstPoint bs₄ with
      | error e => rw [hloop] at hok; cases hok
      | ok q =>
        obtain ⟨rest, bs₅⟩ := q
        rw [hloop] at hok
        simp only [Bind.bind, Except.bind] at hok
        cases hok
        simp [parsePolylinePoints_length env.flatParams oxu oyu c firstPoint
          bs₄ bs₃ rest hloop]
  · intro hdr bs₁ ch bs₂ c bs₃ cp bs₄ hhdr hch hcount hok
    obtain ⟨attrs, oxu, oyu⟩ := hdr
    unfold WvgParser.parseCircularPolylineElement at hok
    rw [hhdr] at hok
    simp only [Bind.bind, Except.bind] at hok
    rw [hch] at hok
    simp only [Bind.bind, Except.bind] at hok
    rw [hcount] at hok
    simp only [Bind.bind, Except.bind] at hok
    cases hpt : WvgParser.parsePoint env.flatParams bs₃ with
    | error e => rw [hpt] at hok; cases hok
    | ok p =>
      obtain ⟨firstPt, bs₅⟩ := p
      rw [hpt] at hok
      simp only [Bind.bind, Except.bind] at hok
      cases hco : WvgParser.parseCurveOffset env.genericParams (ch = 1) bs₅ with
      | error e => rw [hco] at hok; cases hok
      | ok q =>
        obtain ⟨secondOffset, bs₆⟩ := q
        rw [hco] at hok
        simp only [Bind.bind, Except.bind] at hok
        cases hpt2 : WvgParser.parsePoint env.flatParams bs₆ with
        | error e => rw [hpt2] at hok; cases hok
        | ok r =>
          obtain ⟨secondPt, bs₇⟩ := r
          rw [hpt2] at hok
          simp only [Bind.bind, Except.bind] at hok
          cases hloop : WvgParser.parseCircularPoints env (ch = 1) oxu oyu c
              bs₇ with
          | error e => rw [hloop] at hok; cases hok
          | ok s =>
            obtain ⟨rest, bs₈⟩ := s
            rw [hloop] at hok
            simp only [Bind.bind, Except.bind] at hok
            cases hok
            obtain ⟨hlen, habs⟩ := parseCircularPoints_spec env (ch = 1) oxu
              oyu c bs₇ bs₄ rest hloop
            refine ⟨by simp [hlen], ?_, ?_, ?_⟩
            · intro p₀ h₀
              rw [List.getElem?_cons_zero] at h₀
              cases h₀
              exact ⟨rfl, rfl⟩
            · intro p₁ h₁
              rw [List.getElem?_cons_succ, List.getElem?_cons_zero] at h₁
              cases h₁
              rfl
            · intro i p hi hp
              obtain ⟨k, rfl⟩ : ∃ k, i = k + 2 := ⟨i - 2, by omega⟩
              rw [show k + 2 = (k + 1) + 1 from rfl, List.getElem?_cons_succ,
                List.getElem?_cons_succ] at hp
              exact habs p (List.getElem?_mem hp)

/-- C9 witness: against the small test environment, a concrete polyline
stream with count field 1 decodes to 2 points, and a concrete circular
polyline stream with count field 1 decodes to 3 points with curve offset 0
on the first entry and exactly the first two entries absolute. -/
theorem pointCounts_witness :
    (∃ pl bs₃, WvgParser.parsePolylineElement testEnv
        (BitStream.new [0b00010000, 0b01100010, 0b00111100]) = .ok (pl, bs₃) ∧
      pl.points.length = 1 + 1) ∧
    (∃ cp bs₄, WvgParser.parseCircularPolylineElement testEnv
        (BitStream.new [0b00001000, 0b00110001, 0b00110000, 0b01010000,
          0b11110010, 0b11000000]) = .ok (cp, bs₄) ∧
      cp.points.length = 1 + 2 ∧
      (∀ p₀, cp.points[0]? = some p₀ → p₀.curveOffset = 0 ∧ p₀.isAbsolute = true) ∧
      (∀ i p, 2 ≤ i → cp.points[i]? = some p → p.isAbsolute = false)) := by
  constructor
  · refine ⟨⟨{}, [⟨3, 2⟩, ⟨4, 1⟩]⟩, ⟨[0b00010000, 0b01100010, 0b00111100], 2, 6⟩,
      by rfl, ?_⟩
    have h := (pointCounts testEnv
      (BitStream.new [0b00010000, 0b01100010, 0b00111100])).1
      (({} : ElementAttributes), false, false)
      ⟨[0b00010000, 0b01100010, 0b00111100], 0, 2⟩ 1
      ⟨[0b00010000, 0b01100010, 0b00111100], 0, 4⟩
      ⟨{}, [⟨3, 2⟩, ⟨4, 1⟩]⟩
      ⟨[0b00010000, 0b01100010, 0b00111100], 2, 6⟩ (by rfl) (by rfl) (by rfl)
    exact h
  · refine ⟨⟨{}, [⟨0, ⟨3, 2⟩, true⟩, ⟨6, ⟨5, 1⟩, true⟩, ⟨-2, ⟨2, -2⟩, false⟩]⟩,
      ⟨[0b00001000, 0b00110001, 0b00110000, 0b01010000, 0b11110010,
        0b11000000], 5, 3⟩, by rfl, ?_⟩
    have h := (pointCounts testEnv
      (BitStream.new [0b00001000, 0b00110001, 0b00110000, 0b01010000,
        0b11110010, 0b11000000])).2
      (({} : ElementAttributes), false, false)
      ⟨[0b00001000, 0b00110001, 0b00110000, 0b01010000, 0b11110010,
        0b11000000], 0, 2⟩ 0
      ⟨[0b00001000, 0b00110001, 0b00110000, 0b01010000, 0b11110010,
        0b11000000], 0, 3⟩ 1
      ⟨[0b00001000, 0b00110001, 0b00110000, 0b01010000, 0b11110010,
        0b11000000], 0, 5⟩
      ⟨{}, [⟨0, ⟨3, 2⟩, true⟩, ⟨6, ⟨5, 1⟩, true⟩, ⟨-2, ⟨2, -2⟩, false⟩]⟩
      ⟨[0b00001000, 0b00110001, 0b00110000, 0b01010000, 0b11110010,
        0b11000000], 5, 3⟩ (by rfl) (by rfl) (by rfl) (by rfl)
    exact ⟨h.1, h.2.1, h.2.2.2⟩

/-- C6: a transform with only scale Y present renders with no scale
component at all: the scale match of `build_transform` only emits output
when scale X is present, so the decoded scale-Y value 1 — whose claimed
factor `1 + 1 · 0.25/2^0 = 1.25` is not the identity — is silently
dropped. -/
theorem buildTransform_drops_scaleY_only :
    SvgContext.buildTransform (SvgContext.angleResolutionOf {})
        (SvgContext.scaleResolutionOf {}) { scaleY := some 1 } = [] ∧
    (1 + (1 : ℚ) * SvgContext.scaleResolutionOf {} ≠ 1) := by
  refine ⟨by rfl, by norm_num [SvgContext.scaleResolutionOf]⟩
